import Mathlib

/-!
Verification development for the RBAC permission-resolution core of
`framework/wazuh/rbac/decorators.py`.

The Python module is shallowly embedded as follows.

* A resource identifier string `"type:attribute:value"` is represented by the
  structure `Resource` holding the identifier prefix `pfx = "type:attribute"`
  (the source computes it as `':'.join(element.split(':')[:-1])`, i.e. the two
  leading components re-joined) and the trailing `value` component.  For every
  string matching the source grammar `^([a-z*]+:[a-z*]+:)(\w+|\*|{\w+})$` the
  split/join round-trips, so the structure is an exact image of the string.
* Python `set` becomes `Finset String`; Python `dict` (whose insertion order is
  observable through `list(d.keys())` in the decorator) becomes an ordered
  association list with unique keys: assignment to a present key keeps its
  position, assignment to a fresh key appends, `pop` deletes the entry.
* The external enumeration collaborators (`get_agents_info`, `get_groups`,
  `RolesManager`, `PoliciesManager`, `AuthenticationManager`, `expand_group`)
  live outside this repository; they are bundled as the explicit parameter
  `Env` and threaded through every function that the source lets call them.
* The process-global `mode` variable is threaded as an explicit `String`
  argument, and raising an exception is modelled with `Except` / explicit
  flags; `copy.deepcopy` is the identity in this pure model.
-/

/-- External enumeration/directory collaborators used by `_expand_resource`. -/
structure Env where
  agents : Finset String
  groups : Finset String
  roles : Finset String
  policies : Finset String
  users : Finset String
  expandGroup : String → Finset String

/-- A parsed resource identifier `type:attribute:value`: `pfx` is the
identifier prefix `type:attribute`, `value` the last component. -/
structure Resource where
  pfx : String
  value : String
deriving DecidableEq

/-- Ordered key → finset-of-values dictionary, mirroring a Python `dict` with
`set` values (insertion order preserved). -/
abbrev PermMap := List (String × Finset String)

/-- First-match association lookup, `d[k]` / `k in d`. -/
def pmLookup : PermMap → String → Option (Finset String)
  | [], _ => Option.none
  | (k, v) :: rest, key => if k = key then some v else pmLookup rest key

/-- `key in d.keys()`. -/
def pmHasKey (m : PermMap) (k : String) : Bool := (pmLookup m k).isSome

/-- Dictionary assignment `d[k] = v`: replace in place if present, else append. -/
def pmSet : PermMap → String → Finset String → PermMap
  | [], key, v => [(key, v)]
  | (k, w) :: rest, key, v =>
      if k = key then (k, v) :: rest else (k, w) :: pmSet rest key v

/-- Dictionary deletion `d.pop(k)` (keys of a dict are unique, so removing
every entry with key `k` is the same as removing the entry). -/
def pmErase (m : PermMap) (key : String) : PermMap :=
  m.filter (fun kv => kv.1 ≠ key)

/-- Lookup with default empty set. -/
def pmGetD (m : PermMap) (k : String) : Finset String := (pmLookup m k).getD ∅

/-- Source lines 29-66, `_expand_resource`: expand a resource specifier to a
concrete value set, dispatching to the enumeration collaborators. -/
def _expand_resource (env : Env) (r : Resource) : Finset String :=
  if r.pfx = "agent:group" then env.expandGroup r.value
  else if r.value = "*" then
    if r.pfx = "agent:id" then env.agents
    else if r.pfx = "group:id" then env.groups
    else if r.pfx = "role:id" then env.roles
    else if r.pfx = "policy:id" then env.policies
    else if r.pfx = "user:id" then env.users
    else ∅
  else {r.value}

/-- Source lines 69-92, `_use_expanded_resource`: combine one expanded
statement into the accumulated final permissions for its prefix. -/
def _use_expanded_resource (effect : String) (final_permissions : Finset String)
    (expanded_resource : Finset String) (req_resources_value : Finset String)
    (delete : Bool) : Finset String :=
  let expanded :=
    if "*" ∈ req_resources_value then expanded_resource
    else expanded_resource ∩ req_resources_value
  if effect = "allow" then final_permissions ∪ expanded
  else if delete then ∅
  else final_permissions \ expanded

/-- Source lines 95-106, `_black_mode_expansion`: on first sight of an
identifier in black mode, install the full `identifier:*` expansion as the
baseline and record the identifier in `black_negation`. -/
def _black_mode_expansion (env : Env) (final_user_permissions : PermMap)
    (identifier : String) (black_negation : Finset String) :
    PermMap × Finset String :=
  if identifier ∈ black_negation then (final_user_permissions, black_negation)
  else (pmSet final_user_permissions identifier
          (_expand_resource env (Resource.mk identifier "*")),
        insert identifier black_negation)

/-- Source lines 109-128, `_black_mode_sanitize`: drop final-permission keys
that were never required, and intersect the rest with the required values
unless the required set is exactly the singleton wildcard. -/
def _black_mode_sanitize (final_user_permissions : PermMap)
    (req_resources_value : PermMap) : PermMap :=
  final_user_permissions.filterMap (fun kv =>
    match pmLookup req_resources_value kv.1 with
    | Option.none => Option.none
    | some rv => if rv ≠ {"*"} then some (kv.1, kv.2 ∩ rv) else some kv)

/-- Source lines 163-165: the `agent:group` statement prefix is remapped to
`agent:id` before any bookkeeping. -/
def remapId (p : String) : String := if p = "agent:group" then "agent:id" else p

/-- Source lines 139-143: group the required resources into
`identifier prefix → set of required values`. -/
def buildReq (req_resources : List Resource) : PermMap :=
  req_resources.foldl (fun m r =>
    let m1 := if pmHasKey m r.pfx then m else pmSet m r.pfx ∅
    pmSet m1 r.pfx (pmGetD m1 r.pfx ∪ {r.value})) []

/-- `d[k] = set() if absent` (lines 166-167 and analogues). -/
def ensureKey (fm : PermMap) (k : String) : PermMap :=
  if pmHasKey fm k then fm else pmSet fm k ∅

/-- Source lines 161-182: the body of the statement loop of
`_permissions_processing`, one statement `(resource, effect)` at a time.
State is the pair (final permissions dict, `black_negation` set).  A missing
`req_resources_value[identifier]` entry raises `KeyError` in the source before
either the wildcard-allow backstop update or `_use_expanded_resource` can run
(the lookup occurs inside the condition, respectively in the argument list),
landing in the `except` branch that pops the identifier if its set is empty. -/
def ppApply (env : Env) (req_resources_value : PermMap) (fm : PermMap)
    (identifier : String) (stmt : Resource × String) : PermMap :=
  let expanded := _expand_resource env stmt.1
  match pmLookup req_resources_value identifier with
  | Option.none =>
      if pmGetD fm identifier = ∅ then pmErase fm identifier else fm
  | some rv =>
      let cur0 := pmGetD fm identifier
      let cur1 :=
        if identifier = "*:*" ∨
            (stmt.2 = "allow" ∧ "*" ∉ rv ∧ stmt.1.value = "*")
        then cur0 ∪ (rv \ expanded) else cur0
      pmSet fm identifier (_use_expanded_resource stmt.2 cur1 expanded rv
        (stmt.1.value == "*" && stmt.2 == "deny"))

/-- The statement-loop body assembled: remap the identifier, ensure its entry,
apply the black-mode baseline expansion, then the try/except block
(`ppApply`). -/
def ppStep (env : Env) (mode : String) (req_resources_value : PermMap)
    (st : PermMap × Finset String) (stmt : Resource × String) :
    PermMap × Finset String :=
  let identifier := remapId stmt.1.pfx
  let fm1 := ensureKey st.1 identifier
  let bst :=
    if mode = "black" then _black_mode_expansion env fm1 identifier st.2
    else (fm1, st.2)
  (ppApply env req_resources_value bst.1 identifier stmt, bst.2)

/-- Source lines 148-156: one iteration of the black-mode default-allow loop
(`user_permissions_for_resource` empty and mode black): the universal prefix
is granted `{'*'}` directly, any other required resource has its expansion
unioned into the entry of its prefix. -/
def blackDefaultStep (env : Env) (fm : PermMap) (r : Resource) : PermMap :=
  if r.pfx = "*:*" then pmSet fm "*:*" {"*"}
  else
    let expanded := _expand_resource env r
    let fm1 := ensureKey fm r.pfx
    pmSet fm1 r.pfx (pmGetD fm1 r.pfx ∪ expanded)

/-- Source lines 131-185, `_permissions_processing`: resolve one action's
required resources against the caller's ordered statements, accumulating into
`final0` (the shared `final_user_permissions` dict). -/
def _permissions_processing (env : Env) (mode : String)
    (req_resources : List Resource)
    (user_permissions_for_resource : List (Resource × String))
    (final0 : PermMap) : PermMap :=
  let req_resources_value := buildReq req_resources
  if user_permissions_for_resource.length = 0 ∧ mode = "black" then
    req_resources.foldl (blackDefaultStep env) final0
  else
    let res := user_permissions_for_resource.foldl
      (ppStep env mode req_resources_value) (final0, ∅)
    if mode = "black" then _black_mode_sanitize res.1 req_resources_value
    else res.1

/-- Caller statements grouped by action, `action → ordered statements`
(the source's per-action dict of `resource: effect` entries, whose iteration
order is insertion order). -/
abbrev Rbac := List (String × List (Resource × String))

/-- Assoc lookup into the caller's statement groups, `rbac[action]`. -/
def rbacLookup : Rbac → String → Option (List (Resource × String))
  | [], _ => Option.none
  | (k, v) :: rest, key => if k = key then some v else rbacLookup rest key

/-- Source lines 238-251, `_match_permissions`: run `_permissions_processing`
for every declared action over the shared `allow_match` dict; a missing action
in the caller's statements (`KeyError`) is processed with an empty dict. -/
def _match_permissions (env : Env) (mode : String)
    (req_permissions : List (String × List Resource)) (rbac : Rbac) : PermMap :=
  req_permissions.foldl (fun allow_match ar =>
    match rbacLookup rbac ar.1 with
    | some stmts => _permissions_processing env mode ar.2 stmts allow_match
    | Option.none => _permissions_processing env mode ar.2 [] allow_match) []

/-- A Python keyword-argument value as inspected by the parser: a scalar
string, a list of strings, or `None`. -/
inductive PyVal
  | str (s : String)
  | vlist (xs : List String)
  | pynone
deriving DecidableEq

/-- Call keyword arguments, `name → value`. -/
abbrev Kwargs := List (String × PyVal)

/-- `name in kwargs` / `kwargs[name]`. -/
def kwLookup : Kwargs → String → Option PyVal
  | [], _ => Option.none
  | (k, v) :: rest, key => if k = key then some v else kwLookup rest key

/-- `kwargs[name] = v`. -/
def kwSet : Kwargs → String → PyVal → Kwargs
  | [], key, v => [(key, v)]
  | (k, w) :: rest, key, v =>
      if k = key then (k, v) :: rest else (k, w) :: kwSet rest key v

/-- The two error raises of the module: `WazuhError(4000)` (access denied) and
`WazuhError(4015, {'param': name})` (required parameter bound to an empty
list). -/
inductive WErr
  | e4000
  | e4015 (param : String)
deriving DecidableEq

/-- A declared resource template after the grammar match
`^([a-z*]+:[a-z*]+:)(\w+|\*|{(\w+)})$`: `pfx` is group 1 without its trailing
colon; a `static` template carries the literal group 2, a `holder` template
the placeholder name of group 3 (the `'{' in m.group(2)` branch). -/
inductive Template
  | static (pfx : String) (value : String)
  | holder (pfx : String) (name : String)
deriving DecidableEq

/-- One iteration of the template loop of `_get_required_permissions`
(source lines 200-228), over the running state
(resource list, target params, `add_denied`). -/
structure ParseState where
  res_list : List Resource
  target_params : List String
  add_denied : Bool
deriving DecidableEq

/-- Source lines 200-228: process one declared template against the call
keyword arguments. -/
def procResource (kwargs : Kwargs) (st : ParseState) (t : Template) :
    Except WErr ParseState :=
  match t with
  | Template.static pfx value =>
      Except.ok { st with
        target_params := st.target_params ++ [value],
        res_list := st.res_list ++ [Resource.mk pfx value] }
  | Template.holder pfx name =>
      let st1 := { st with target_params := st.target_params ++ [name] }
      match kwLookup kwargs name with
      | Option.none =>
          Except.ok { st1 with
            add_denied := false,
            res_list := st1.res_list ++ [Resource.mk pfx "*"] }
      | some (PyVal.vlist xs) =>
          if xs = [] then Except.error (WErr.e4015 name)
          else Except.ok { st1 with
            res_list := st1.res_list ++ xs.map (fun x => Resource.mk pfx x) }
      | some PyVal.pynone =>
          Except.ok { st1 with
            add_denied := true,
            res_list := st1.res_list ++ [Resource.mk pfx "*"] }
      | some (PyVal.str s) =>
          if s = "*" then
            Except.ok { st1 with
              add_denied := true,
              res_list := st1.res_list ++ [Resource.mk pfx "*"] }
          else
            Except.ok { st1 with
              res_list := st1.res_list ++ [Resource.mk pfx s] }

/-- Source lines 188-235, `_get_required_permissions`: parse the declared
templates against the call arguments, producing the ordered target parameters,
the per-action required-resource lists (every action shares the same list) and
the `add_denied` flag (initially `True`). -/
def _get_required_permissions (actions : List String)
    (resources : List Template) (kwargs : Kwargs) :
    Except WErr (List String × List (String × List Resource) × Bool) :=
  match resources.foldlM (procResource kwargs) (ParseState.mk [] [] true) with
  | Except.error e => Except.error e
  | Except.ok st =>
      Except.ok (st.target_params,
        actions.map (fun a => (a, st.res_list)), st.add_denied)

/-- Source lines 279-287: the enforcement loop of `wrapper`.  For each target
position it reads `list(allow.keys())[index]`, denies the call when that
raises `IndexError` or when the permitted set at that key is empty, and
otherwise (for a non-`'*'` target) overwrites the keyword argument with the
permitted value list (`list` of a Python set; this model pins the arbitrary
set order to the sorted order). -/
def gateNarrow (allow : PermMap) : List String → Nat → Kwargs →
    Except Unit Kwargs
  | [], _, kw => Except.ok kw
  | t :: ts, idx, kw =>
      match (allow.map Prod.fst).get? idx with
      | Option.none => Except.error ()
      | some k =>
          let v := pmGetD allow k
          if v = ∅ then Except.error ()
          else gateNarrow allow ts (idx + 1)
            (if t ≠ "*" then kwSet kw t (PyVal.vlist (v.sort (fun a b => a ≤ b)))
             else kw)

/-- Source lines 270-294, the decorator's `wrapper`.  The caller's statements
(`kwargs['rbac']` in the source, deep-copied before resolution) are the
explicit `rbac` argument, so the `del kwargs['rbac']` performed when
`stack` is false is implicit: `kwargs` holds the remaining keyword arguments
and is what the wrapped function and the post-processor observe.  `deepcopy`
is the identity on these immutable values. -/
def wrapper {α β : Type} (env : Env) (mode : String) (actions : List String)
    (resources : List Template) (kwargs : Kwargs) (rbac : Rbac)
    (func : Kwargs → α)
    (post_proc_func : α → Kwargs → PermMap → List String → Bool → β) :
    Except WErr β :=
  match _get_required_permissions actions resources kwargs with
  | Except.error e => Except.error e
  | Except.ok (target_params, req_permissions, add_denied) =>
      let allow := _match_permissions env mode req_permissions rbac
      let original_kwargs := kwargs
      match gateNarrow allow target_params 0 kwargs with
      | Except.error _ => Except.error WErr.e4000
      | Except.ok kw2 =>
          Except.ok (post_proc_func (func kw2) original_kwargs allow
            target_params add_denied)

/-- Source lines 19-26, `switch_mode`: returns the stored mode after the call
together with a flag recording whether `TypeError` was raised (raising happens
before the assignment, so the stored mode is then unchanged). -/
def switch_mode (current : String) (m : String) : String × Bool :=
  if m ≠ "white" ∧ m ≠ "black" then (current, true) else (m, false)

/-- The full wildcard expansion of an identifier prefix, `prefix:*`
(what `_black_mode_expansion` installs as the black-mode baseline). -/
def fullExpansion (env : Env) (p : String) : Finset String :=
  _expand_resource env (Resource.mk p "*")

/-- Flip a statement's effect to `deny` (the black-mode dual of an allow
statement, used to state the mode-duality property). -/
def flipDeny (s : Resource × String) : Resource × String := (s.1, "deny")

/-- Union of the expansions of the statements whose (remapped) identifier is
`p`, in statement order. -/
def accExp (env : Env) (p : String) : List (Resource × String) → Finset String
  | [] => ∅
  | s :: rest =>
      (if remapId s.1.pfx = p then _expand_resource env s.1 else ∅) ∪
        accExp env p rest

/-- Union of the expansions of the required resources whose prefix is `p`,
in list order. -/
def unionExp (env : Env) (p : String) : List Resource → Finset String
  | [] => ∅
  | r :: rest =>
      (if r.pfx = p then _expand_resource env r else ∅) ∪ unionExp env p rest

/-- The gate's denial condition at target position `i`: reading the `i`-th key
of the resolved permission dict raises `IndexError`, or the permitted set
stored at that key is empty. -/
def deniedAtB (allow : PermMap) (i : Nat) : Bool :=
  match (allow.map Prod.fst).get? i with
  | Option.none => true
  | some k => decide (pmGetD allow k = ∅)

/-- The gate's overall rejection condition, following the enforcement loop's
recursion: some target position at or after `idx` is denied. -/
def gateDenies (allow : PermMap) : List String → Nat → Bool
  | [], _ => false
  | _ :: ts, idx => deniedAtB allow idx || gateDenies allow ts (idx + 1)

/-- How one template updates the shared `add_denied` flag of
`_get_required_permissions`: `some b` when the branch assigns the flag the
value `b`, `none` when the branch leaves it untouched. -/
def setsFlag (kwargs : Kwargs) : Template → Option Bool
  | Template.static _ _ => Option.none
  | Template.holder _ name =>
      match kwLookup kwargs name with
      | Option.none => some false
      | some (PyVal.vlist _) => Option.none
      | some PyVal.pynone => some true
      | some (PyVal.str s) => if s = "*" then some true else Option.none

/-- White-mode invariant of the statement loop: every prefix present in the
final dict is bounded by its required-value set (when that set lacks the
wildcard) and is empty when the prefix was never required. -/
def WInv (req fm : PermMap) : Prop :=
  ∀ p s, pmLookup fm p = some s →
    (∀ rv, pmLookup req p = some rv → "*" ∉ rv → s ⊆ rv) ∧
    (pmLookup req p = Option.none → s = ∅)

/-- A concrete collaborator environment used for the closed instances:
three agents, one group universe, and a group directory mapping `groupA`
to the agents `010` and `011`. -/
def env0 : Env where
  agents := {"001", "002", "003"}
  groups := {"default"}
  roles := {"1"}
  policies := {"1"}
  users := {"wazuh"}
  expandGroup := fun g =>
    if g = "groupA" then {"010", "011"}
    else if g = "*" then {"010"} else ∅

/-! ### Basic association-list dictionary lemmas -/

theorem pmErase_cons (k0 : String) (v0 : Finset String) (rest : PermMap)
    (k : String) :
    pmErase ((k0, v0) :: rest) k =
      if k0 = k then pmErase rest k else (k0, v0) :: pmErase rest k := by
  by_cases h : k0 = k <;> simp [pmErase, List.filter_cons, h]

theorem pmLookup_set_self (m : PermMap) (k : String) (v : Finset String) :
    pmLookup (pmSet m k v) k = some v := by
  induction m with
  | nil => simp [pmSet, pmLookup]
  | cons kv rest ih =>
      obtain ⟨k0, v0⟩ := kv
      by_cases h : k0 = k
      · simp [pmSet, pmLookup, h]
      · simp [pmSet, pmLookup, h, ih]

theorem pmLookup_set_ne (m : PermMap) {p k : String} (v : Finset String)
    (h : p ≠ k) : pmLookup (pmSet m k v) p = pmLookup m p := by
  induction m with
  | nil => simp [pmSet, pmLookup, Ne.symm h]
  | cons kv rest ih =>
      obtain ⟨k0, v0⟩ := kv
      by_cases hk : k0 = k
      · subst hk
        simp [pmSet, pmLookup, Ne.symm h]
      · by_cases hp : k0 = p
        · subst hp
          simp [pmSet, pmLookup, hk]
        · simp [pmSet, pmLookup, hk, hp, ih]

theorem pmGetD_set_self (m : PermMap) (k : String) (v : Finset String) :
    pmGetD (pmSet m k v) k = v := by
  simp [pmGetD, pmLookup_set_self]

theorem pmLookup_erase_self (m : PermMap) (k : String) :
    pmLookup (pmErase m k) k = Option.none := by
  induction m with
  | nil => simp [pmErase, pmLookup]
  | cons kv rest ih =>
      obtain ⟨k0, v0⟩ := kv
      rw [pmErase_cons]
      by_cases h : k0 = k
      · rw [if_pos h]; exact ih
      · rw [if_neg h]
        simp only [pmLookup, if_neg h]
        exact ih

theorem pmLookup_cons (k0 : String) (v0 : Finset String) (rest : PermMap)
    (p : String) :
    pmLookup ((k0, v0) :: rest) p = if k0 = p then some v0 else pmLookup rest p :=
  rfl

theorem pmLookup_erase_ne (m : PermMap) {p k : String} (h : p ≠ k) :
    pmLookup (pmErase m k) p = pmLookup m p := by
  induction m with
  | nil => simp [pmErase, pmLookup]
  | cons kv rest ih =>
      obtain ⟨k0, v0⟩ := kv
      rw [pmErase_cons]
      by_cases hk : k0 = k
      · subst hk
        rw [if_pos rfl, pmLookup_cons, if_neg (fun hc : k0 = p => h hc.symm)]
        exact ih
      · rw [if_neg hk, pmLookup_cons, pmLookup_cons]
        by_cases hp : k0 = p
        · rw [if_pos hp, if_pos hp]
        · rw [if_neg hp, if_neg hp]
          exact ih

theorem pmLookup_ensure_self (fm : PermMap) (k : String) :
    pmLookup (ensureKey fm k) k = some (pmGetD fm k) := by
  unfold ensureKey
  by_cases h : pmHasKey fm k
  · rw [if_pos h]
    unfold pmHasKey at h
    cases hl : pmLookup fm k with
    | none => rw [hl] at h; simp at h
    | some s => simp [pmGetD, hl]
  · rw [if_neg h]
    unfold pmHasKey at h
    cases hl : pmLookup fm k with
    | none => simp [pmGetD, hl, pmLookup_set_self]
    | some s => rw [hl] at h; simp at h

theorem pmLookup_ensure_ne (fm : PermMap) {p k : String} (h : p ≠ k) :
    pmLookup (ensureKey fm k) p = pmLookup fm p := by
  unfold ensureKey
  by_cases hk : pmHasKey fm k
  · rw [if_pos hk]
  · rw [if_neg hk]; exact pmLookup_set_ne fm _ h

theorem pmGetD_ensure_self (fm : PermMap) (k : String) :
    pmGetD (ensureKey fm k) k = pmGetD fm k := by
  simp [pmGetD, pmLookup_ensure_self]

/-! ### Sanitize and black-mode-expansion lookup lemmas -/

theorem san_cons (req : PermMap) (k0 : String) (v0 : Finset String)
    (rest : PermMap) :
    _black_mode_sanitize ((k0, v0) :: rest) req =
      (match pmLookup req k0 with
       | Option.none => _black_mode_sanitize rest req
       | some rv => (k0, if rv ≠ {"*"} then v0 ∩ rv else v0) ::
           _black_mode_sanitize rest req) := by
  cases hr : pmLookup req k0 with
  | none => simp only [_black_mode_sanitize, List.filterMap_cons, hr]
  | some rv =>
      by_cases hrv : rv ≠ {"*"}
      · simp only [_black_mode_sanitize, List.filterMap_cons, hr, if_pos hrv]
      · simp only [_black_mode_sanitize, List.filterMap_cons, hr, if_neg hrv]

theorem san_lookup_reqNone (fm req : PermMap) (p : String)
    (h : pmLookup req p = Option.none) :
    pmLookup (_black_mode_sanitize fm req) p = Option.none := by
  induction fm with
  | nil => simp [_black_mode_sanitize, pmLookup]
  | cons kv rest ih =>
      obtain ⟨k0, v0⟩ := kv
      by_cases hk : k0 = p
      · subst hk
        simp only [san_cons, h]
        exact ih
      · cases hr : pmLookup req k0 with
        | none =>
            simp only [san_cons, hr]
            exact ih
        | some rv =>
            simp only [san_cons, hr]
            rw [pmLookup_cons, if_neg hk]
            exact ih

theorem san_lookup_fmNone (fm req : PermMap) (p : String)
    (h : pmLookup fm p = Option.none) :
    pmLookup (_black_mode_sanitize fm req) p = Option.none := by
  induction fm with
  | nil => simp [_black_mode_sanitize, pmLookup]
  | cons kv rest ih =>
      obtain ⟨k0, v0⟩ := kv
      rw [pmLookup_cons] at h
      by_cases hk : k0 = p
      · rw [if_pos hk] at h; exact absurd h (by simp)
      · rw [if_neg hk] at h
        cases hr : pmLookup req k0 with
        | none =>
            simp only [san_cons, hr]
            exact ih h
        | some rv =>
            simp only [san_cons, hr]
            rw [pmLookup_cons, if_neg hk]
            exact ih h

theorem san_lookup_some (fm req : PermMap) (p : String) (s rv : Finset String)
    (h1 : pmLookup fm p = some s) (h2 : pmLookup req p = some rv) :
    pmLookup (_black_mode_sanitize fm req) p =
      some (if rv ≠ {"*"} then s ∩ rv else s) := by
  induction fm with
  | nil => simp [pmLookup] at h1
  | cons kv rest ih =>
      obtain ⟨k0, v0⟩ := kv
      rw [pmLookup_cons] at h1
      by_cases hk : k0 = p
      · rw [if_pos hk] at h1
        subst hk
        injection h1 with h1
        subst h1
        simp only [san_cons, h2]
        rw [pmLookup_cons, if_pos rfl]
      · rw [if_neg hk] at h1
        cases hr : pmLookup req k0 with
        | none =>
            simp only [san_cons, hr]
            exact ih h1
        | some rv0 =>
            simp only [san_cons, hr]
            rw [pmLookup_cons, if_neg hk]
            exact ih h1

theorem san_getD_sub (fm req : PermMap) (p : String)
    (hstar : "*" ∉ pmGetD req p) :
    pmGetD (_black_mode_sanitize fm req) p ⊆ pmGetD req p := by
  cases h1 : pmLookup fm p with
  | none =>
      rw [pmGetD, san_lookup_fmNone fm req p h1]
      simp
  | some s =>
      cases h2 : pmLookup req p with
      | none =>
          rw [pmGetD, san_lookup_reqNone fm req p h2]
          simp
      | some rv =>
          rw [pmGetD, san_lookup_some fm req p s rv h1 h2]
          have hrv : rv ≠ {"*"} := by
            intro hc
            rw [pmGetD, h2, hc] at hstar
            simp at hstar
          rw [if_pos hrv]
          rw [pmGetD, h2]
          exact Finset.inter_subset_right

theorem bme_lookup_ne (env : Env) (fm : PermMap) (id : String)
    (neg : Finset String) {p : String} (h : p ≠ id) :
    pmLookup (_black_mode_expansion env fm id neg).1 p = pmLookup fm p := by
  unfold _black_mode_expansion
  by_cases hm : id ∈ neg
  · rw [if_pos hm]
  · rw [if_neg hm]
    exact pmLookup_set_ne fm _ h

theorem bme_neg_ne (env : Env) (fm : PermMap) (id : String)
    (neg : Finset String) {p : String} (h : p ≠ id) :
    (p ∈ (_black_mode_expansion env fm id neg).2 ↔ p ∈ neg) := by
  unfold _black_mode_expansion
  by_cases hm : id ∈ neg
  · rw [if_pos hm]
  · rw [if_neg hm]
    simp [Finset.mem_insert, h]

/-! ### Statement-loop preservation lemmas -/

theorem bstFst_lookup_ne (env : Env) (mode : String) (fm1 : PermMap)
    (id : String) (neg : Finset String) {p : String} (h : p ≠ id) :
    pmLookup (if mode = "black" then _black_mode_expansion env fm1 id neg
              else (fm1, neg)).1 p = pmLookup fm1 p := by
  by_cases hm : mode = "black"
  · rw [if_pos hm]; exact bme_lookup_ne env fm1 id neg h
  · rw [if_neg hm]

theorem bstSnd_mem_ne (env : Env) (mode : String) (fm1 : PermMap)
    (id : String) (neg : Finset String) {p : String} (h : p ≠ id) :
    (p ∈ (if mode = "black" then _black_mode_expansion env fm1 id neg
          else (fm1, neg)).2 ↔ p ∈ neg) := by
  by_cases hm : mode = "black"
  · rw [if_pos hm]; exact bme_neg_ne env fm1 id neg h
  · rw [if_neg hm]

theorem ppApply_lookup_ne (env : Env) (req fm : PermMap) (id : String)
    (stmt : Resource × String) {p : String} (h : p ≠ id) :
    pmLookup (ppApply env req fm id stmt) p = pmLookup fm p := by
  unfold ppApply
  cases hl : pmLookup req id with
  | none =>
      simp only [hl]
      by_cases he : pmGetD fm id = ∅
      · rw [if_pos he]; exact pmLookup_erase_ne fm h
      · rw [if_neg he]
  | some rv =>
      simp only [hl]
      exact pmLookup_set_ne fm _ h

theorem ppStep_lookup_other (env : Env) (mode : String) (req : PermMap)
    (st : PermMap × Finset String) (stmt : Resource × String) {p : String}
    (h : remapId stmt.1.pfx ≠ p) :
    pmLookup (ppStep env mode req st stmt).1 p = pmLookup st.1 p := by
  have hne : p ≠ remapId stmt.1.pfx := fun hc => h hc.symm
  unfold ppStep
  rw [ppApply_lookup_ne env req _ _ stmt hne,
    bstFst_lookup_ne env mode _ _ st.2 hne,
    pmLookup_ensure_ne st.1 hne]

theorem ppStep_neg_other (env : Env) (mode : String) (req : PermMap)
    (st : PermMap × Finset String) (stmt : Resource × String) {p : String}
    (h : remapId stmt.1.pfx ≠ p) :
    (p ∈ (ppStep env mode req st stmt).2 ↔ p ∈ st.2) := by
  have hne : p ≠ remapId stmt.1.pfx := fun hc => h hc.symm
  unfold ppStep
  exact bstSnd_mem_ne env mode _ _ st.2 hne

theorem foldSteps_lookup_other (env : Env) (mode : String) (req : PermMap)
    (l : List (Resource × String)) {p : String}
    (h : ∀ s ∈ l, remapId s.1.pfx ≠ p) :
    ∀ st : PermMap × Finset String,
      pmLookup ((l.foldl (ppStep env mode req) st).1) p = pmLookup st.1 p := by
  induction l with
  | nil => intro st; rfl
  | cons s rest ih =>
      intro st
      rw [List.foldl_cons]
      rw [ih (fun t ht => h t (List.mem_cons_of_mem s ht)) _]
      exact ppStep_lookup_other env mode req st s (h s (List.mem_cons_self s rest))

/-! ### White-mode invariant: entries stay inside the required sets -/

theorem winv_nil (req : PermMap) : WInv req [] := by
  intro p s hl
  simp [pmLookup] at hl

theorem winv_ensure (req fm : PermMap) (k : String) (h : WInv req fm) :
    WInv req (ensureKey fm k) := by
  intro p s hl
  by_cases hp : p = k
  · subst hp
    rw [pmLookup_ensure_self fm p] at hl
    injection hl with hl
    subst hl
    cases hfm : pmLookup fm p with
    | none =>
        constructor
        · intro rv _ _
          simp [pmGetD, hfm]
        · intro _
          simp [pmGetD, hfm]
    | some s0 =>
        have := h p s0 hfm
        simpa [pmGetD, hfm] using this
  · rw [pmLookup_ensure_ne fm hp] at hl
    exact h p s hl

theorem winv_set (req fm : PermMap) (k : String) (v : Finset String)
    (h : WInv req fm)
    (hs : ∀ rv, pmLookup req k = some rv → "*" ∉ rv → v ⊆ rv)
    (hn : pmLookup req k = Option.none → v = ∅) :
    WInv req (pmSet fm k v) := by
  intro p s hl
  by_cases hp : p = k
  · subst hp
    rw [pmLookup_set_self fm p v] at hl
    injection hl with hl
    subst hl
    exact ⟨hs, hn⟩
  · rw [pmLookup_set_ne fm v hp] at hl
    exact h p s hl

theorem winv_erase (req fm : PermMap) (k : String) (h : WInv req fm) :
    WInv req (pmErase fm k) := by
  intro p s hl
  by_cases hp : p = k
  · subst hp
    rw [pmLookup_erase_self fm p] at hl
    exact absurd hl (by simp)
  · rw [pmLookup_erase_ne fm hp] at hl
    exact h p s hl

theorem winv_ppApply (env : Env) (req fm : PermMap) (id : String)
    (stmt : Resource × String) (h : WInv req fm) :
    WInv req (ppApply env req fm id stmt) := by
  unfold ppApply
  cases hl : pmLookup req id with
  | none =>
      simp only [hl]
      by_cases he : pmGetD fm id = ∅
      · rw [if_pos he]; exact winv_erase req fm id h
      · rw [if_neg he]; exact h
  | some rv =>
      simp only [hl]
      apply winv_set req fm id _ h
      · intro rv2 hrv2 hstar
        rw [hl] at hrv2
        injection hrv2 with e
        rw [← e] at hstar ⊢
        have hcur0 : pmGetD fm id ⊆ rv := by
          cases hf : pmLookup fm id with
          | none => simp [pmGetD, hf]
          | some s0 =>
              have := (h id s0 hf).1 rv hl hstar
              simpa [pmGetD, hf] using this
        have hcur1 : (if (id = "*:*" ∨
              (stmt.2 = "allow" ∧ "*" ∉ rv ∧ stmt.1.value = "*"))
            then pmGetD fm id ∪ (rv \ _expand_resource env stmt.1)
            else pmGetD fm id) ⊆ rv := by
          split
          · exact Finset.union_subset hcur0 Finset.sdiff_subset
          · exact hcur0
        unfold _use_expanded_resource
        simp only [if_neg hstar]
        split
        · exact Finset.union_subset hcur1 Finset.inter_subset_right
        · split
          · exact Finset.empty_subset rv
          · exact Finset.Subset.trans Finset.sdiff_subset hcur1
      · intro hnone
        rw [hl] at hnone
        exact absurd hnone (by simp)

theorem winv_ppStep (env : Env) (mode : String) (req : PermMap)
    (st : PermMap × Finset String) (stmt : Resource × String)
    (hmode : mode ≠ "black") (h : WInv req st.1) :
    WInv req (ppStep env mode req st stmt).1 := by
  simp only [ppStep]
  rw [if_neg hmode]
  exact winv_ppApply env req _ _ stmt
    (winv_ensure req st.1 (remapId stmt.1.pfx) h)

theorem winv_fold (env : Env) (mode : String) (req : PermMap)
    (l : List (Resource × String)) (hmode : mode ≠ "black") :
    ∀ st : PermMap × Finset String, WInv req st.1 →
      WInv req ((l.foldl (ppStep env mode req) st).1) := by
  induction l with
  | nil => intro st h; exact h
  | cons s rest ih =>
      intro st h
      rw [List.foldl_cons]
      exact ih _ (winv_ppStep env mode req st s hmode h)

/-! ### Claim C1: no over-grant -/

/-- Claim C1, counterexample: in black mode with no applicable statements, a
required `agent:group:groupA` resource makes the default-allow branch union
the group's member agent ids into `final["agent:group"]`, which are not
members of the required-value set `{groupA}` although that set does not
contain `*` — the stated invariant fails on the code. -/
theorem c1_counterexample :
    "*" ∉ pmGetD (buildReq [Resource.mk "agent:group" "groupA"]) "agent:group" ∧
    "010" ∈ pmGetD (_permissions_processing env0 "black"
      [Resource.mk "agent:group" "groupA"] [] []) "agent:group" ∧
    "010" ∉ pmGetD (buildReq [Resource.mk "agent:group" "groupA"]) "agent:group" := by
  decide

/-- Claim C1 (amended): the no-over-grant invariant holds in white mode
unconditionally, and in black mode whenever the caller has at least one
statement for the action; only the black-mode default-allow branch (no
statements) can place values outside the required-value set.  For every
identifier prefix whose required-value set does not contain `*`, every value
in the resolver's final permission set for that prefix is a member of the
required-value set. -/
theorem c1_amended (env : Env) (mode : String) (rs : List Resource)
    (stmts : List (Resource × String))
    (hmode : mode = "white" ∨ (mode = "black" ∧ stmts ≠ []))
    (p : String) (hstar : "*" ∉ pmGetD (buildReq rs) p) :
    pmGetD (_permissions_processing env mode rs stmts []) p ⊆
      pmGetD (buildReq rs) p := by
  simp only [_permissions_processing]
  rcases hmode with hw | ⟨hb, hne⟩
  · subst hw
    rw [if_neg (by simp)]
    rw [if_neg (by simp)]
    have hinv := winv_fold env "white" (buildReq rs) stmts (by simp)
      ([], ∅) (winv_nil _)
    cases hfin : pmLookup ((stmts.foldl (ppStep env "white" (buildReq rs))
        ([], ∅)).1) p with
    | none => simp [pmGetD, hfin]
    | some s =>
        cases hr : pmLookup (buildReq rs) p with
        | none =>
            have hs := (hinv p s hfin).2 hr
            simp [pmGetD, hfin, hr, hs]
        | some rv =>
            have hsub := (hinv p s hfin).1 rv hr
              (by simpa [pmGetD, hr] using hstar)
            simpa [pmGetD, hfin, hr] using hsub
  · subst hb
    rw [if_neg (by simp [List.length_eq_zero, hne])]
    rw [if_pos rfl]
    exact san_getD_sub _ _ p hstar

/-- Witness for `c1_amended` at a concrete white-mode instance. -/
theorem c1_amended_witness :
    pmGetD (_permissions_processing env0 "white" [Resource.mk "agent:id" "001"]
      [(Resource.mk "agent:id" "*", "allow")] []) "agent:id" ⊆
      pmGetD (buildReq [Resource.mk "agent:id" "001"]) "agent:id" :=
  c1_amended env0 "white" [Resource.mk "agent:id" "001"]
    [(Resource.mk "agent:id" "*", "allow")] (Or.inl rfl) "agent:id" (by decide)

/-! ### Claim C5: deny-all precedence -/

theorem use_deny_star (finp expr rv : Finset String) :
    _use_expanded_resource "deny" finp expr rv true = ∅ := by
  unfold _use_expanded_resource
  simp

/-- Claim C5: a full-wildcard deny statement `(type:attr:*, deny)` that is the
last statement touching its (remapped) identifier prefix always leaves the
resolver's final permission set for that prefix empty, regardless of the
statements that preceded it, in every mode. -/
theorem c5_deny_all (env : Env) (mode : String) (rs : List Resource)
    (s1 : List (Resource × String)) (d : Resource × String)
    (s2 : List (Resource × String))
    (hv : d.1.value = "*") (he : d.2 = "deny")
    (h2 : ∀ s ∈ s2, remapId s.1.pfx ≠ remapId d.1.pfx) :
    pmGetD (_permissions_processing env mode rs (s1 ++ d :: s2) [])
      (remapId d.1.pfx) = ∅ := by
  simp only [_permissions_processing]
  rw [if_neg (by simp)]
  rw [List.foldl_append, List.foldl_cons]
  have hpres := foldSteps_lookup_other env mode (buildReq rs) s2 h2
    (ppStep env mode (buildReq rs)
      (s1.foldl (ppStep env mode (buildReq rs)) ([], ∅)) d)
  cases hl : pmLookup (buildReq rs) (remapId d.1.pfx) with
  | some rv =>
      have hstep : pmLookup (ppStep env mode (buildReq rs)
          (s1.foldl (ppStep env mode (buildReq rs)) ([], ∅)) d).1
          (remapId d.1.pfx) = some ∅ := by
        simp only [ppStep, ppApply]
        simp only [hl]
        rw [pmLookup_set_self]
        have hb : (d.1.value == "*" && d.2 == "deny") = true := by
          rw [hv, he]; rfl
        rw [hb, he, use_deny_star]
      by_cases hm : mode = "black"
      · rw [if_pos hm]
        rw [pmGetD, san_lookup_some _ _ (remapId d.1.pfx) ∅ rv
          (by rw [hpres, hstep]) hl]
        split <;> simp
      · rw [if_neg hm]
        rw [pmGetD, hpres, hstep]
        rfl
  | none =>
      by_cases hm : mode = "black"
      · rw [if_pos hm]
        rw [pmGetD, san_lookup_reqNone _ _ (remapId d.1.pfx) hl]
        rfl
      · rw [if_neg hm]
        have hinv := winv_fold env mode (buildReq rs) s1 hm ([], ∅) (winv_nil _)
        have hg : pmGetD ((s1.foldl (ppStep env mode (buildReq rs))
            ([], ∅)).1) (remapId d.1.pfx) = ∅ := by
          cases hf : pmLookup ((s1.foldl (ppStep env mode (buildReq rs))
              ([], ∅)).1) (remapId d.1.pfx) with
          | none => simp [pmGetD, hf]
          | some s =>
              have := (hinv (remapId d.1.pfx) s hf).2 hl
              simp [pmGetD, hf, this]
        have hstep : pmLookup (ppStep env mode (buildReq rs)
            (s1.foldl (ppStep env mode (buildReq rs)) ([], ∅)) d).1
            (remapId d.1.pfx) = Option.none := by
          simp only [ppStep, ppApply]
          rw [if_neg hm]
          simp only [hl]
          rw [if_pos (by rw [pmGetD_ensure_self]; exact hg)]
          exact pmLookup_erase_self _ _
        rw [pmGetD, hpres, hstep]
        rfl

/-- Witness for `c5_deny_all`: a black-mode run where an allow is followed by
`agent:id:*` deny and then a statement for an unrelated prefix. -/
theorem c5_deny_all_witness :
    pmGetD (_permissions_processing env0 "black" [Resource.mk "agent:id" "001"]
      [(Resource.mk "agent:id" "001", "allow"),
       (Resource.mk "agent:id" "*", "deny"),
       (Resource.mk "group:id" "default", "deny")] []) (remapId "agent:id") = ∅ :=
  c5_deny_all env0 "black" [Resource.mk "agent:id" "001"]
    [(Resource.mk "agent:id" "001", "allow")]
    (Resource.mk "agent:id" "*", "deny")
    [(Resource.mk "group:id" "default", "deny")]
    rfl rfl (by decide)

/-! ### Claim C7: black-mode default-allow with no statements -/

theorem bds_getD_step (env : Env) (fm : PermMap) (r : Resource) (p : String)
    (hp : p ≠ "*:*") :
    pmGetD (blackDefaultStep env fm r) p =
      pmGetD fm p ∪ (if r.pfx = p then _expand_resource env r else ∅) := by
  unfold blackDefaultStep
  by_cases hr : r.pfx = "*:*"
  · rw [if_pos hr]
    have hrp : ¬ r.pfx = p := by rw [hr]; exact fun hc => hp hc.symm
    rw [if_neg hrp, Finset.union_empty]
    simp [pmGetD, pmLookup_set_ne fm _ hp]
  · rw [if_neg hr]
    by_cases hrp : r.pfx = p
    · subst hrp
      rw [if_pos rfl, pmGetD_set_self, pmGetD_ensure_self]
    · rw [if_neg hrp, Finset.union_empty]
      have hne : p ≠ r.pfx := fun hc => hrp hc.symm
      simp [pmGetD, pmLookup_set_ne _ _ hne, pmLookup_ensure_ne _ hne]

theorem bds_getD (env : Env) (p : String) (hp : p ≠ "*:*") :
    ∀ (l : List Resource) (fm : PermMap),
      pmGetD (l.foldl (blackDefaultStep env) fm) p =
        pmGetD fm p ∪ unionExp env p l := by
  intro l
  induction l with
  | nil => intro fm; simp [unionExp]
  | cons r rest ih =>
      intro fm
      rw [List.foldl_cons, ih, bds_getD_step env fm r p hp]
      simp only [unionExp]
      rw [Finset.union_assoc]

theorem bds_star_preserved (env : Env) (l : List Resource) :
    ∀ fm : PermMap, pmLookup fm "*:*" = some {"*"} →
      pmLookup (l.foldl (blackDefaultStep env) fm) "*:*" = some {"*"} := by
  induction l with
  | nil => intro fm h; exact h
  | cons r rest ih =>
      intro fm h
      rw [List.foldl_cons]
      apply ih
      unfold blackDefaultStep
      by_cases hr : r.pfx = "*:*"
      · rw [if_pos hr]; exact pmLookup_set_self _ _ _
      · rw [if_neg hr]
        have hne : ("*:*" : String) ≠ r.pfx := fun hc => hr hc.symm
        rw [pmLookup_set_ne _ _ hne, pmLookup_ensure_ne _ hne]
        exact h

theorem bds_star_mem (env : Env) :
    ∀ (l : List Resource) (fm : PermMap), (∃ r ∈ l, r.pfx = "*:*") →
      pmLookup (l.foldl (blackDefaultStep env) fm) "*:*" = some {"*"} := by
  intro l
  induction l with
  | nil =>
      intro fm h
      rcases h with ⟨r, hr, _⟩
      simp at hr
  | cons r0 rest ih =>
      intro fm h
      rw [List.foldl_cons]
      by_cases hstar : ∃ r ∈ rest, r.pfx = "*:*"
      · exact ih _ hstar
      · rcases h with ⟨r, hr, hpfx⟩
        rcases List.mem_cons.mp hr with rfl | hmem
        · apply bds_star_preserved
          unfold blackDefaultStep
          rw [if_pos hpfx]
          exact pmLookup_set_self _ _ _
        · exact absurd ⟨r, hmem, hpfx⟩ hstar

/-- Claim C7: with no applicable statements and black mode, the resolver
default-allows — every required resource with the universal prefix `*:*`
yields the direct grant `{*}` under that key, and for any other prefix the
final set is exactly the union of the expansions of the required resources
with that prefix (so required `agent:id:*` yields the full agent-id
universe). -/
theorem c7_black_default (env : Env) (rs : List Resource) :
    (∀ r ∈ rs, r.pfx = "*:*" →
       pmLookup (_permissions_processing env "black" rs [] []) "*:*" =
         some {"*"}) ∧
    (∀ p, p ≠ "*:*" →
       pmGetD (_permissions_processing env "black" rs [] []) p =
         unionExp env p rs) := by
  have hproc : _permissions_processing env "black" rs [] [] =
      rs.foldl (blackDefaultStep env) [] := by
    simp only [_permissions_processing]
    rw [if_pos (by simp)]
  constructor
  · intro r hr hpfx
    rw [hproc]
    exact bds_star_mem env rs [] ⟨r, hr, hpfx⟩
  · intro p hp
    rw [hproc, bds_getD env p hp rs []]
    simp [pmGetD, pmLookup]

/-- Witness for `c7_black_default`: required `agent:id:*` plus a universal
resource; the agent-id entry is the full agent universe of the directory. -/
theorem c7_black_default_witness :
    pmLookup (_permissions_processing env0 "black"
      [Resource.mk "agent:id" "*", Resource.mk "*:*" "*"] [] []) "*:*" =
      some {"*"} ∧
    pmGetD (_permissions_processing env0 "black"
      [Resource.mk "agent:id" "*", Resource.mk "*:*" "*"] [] []) "agent:id" =
      unionExp env0 "agent:id" [Resource.mk "agent:id" "*", Resource.mk "*:*" "*"] :=
  ⟨(c7_black_default env0 [Resource.mk "agent:id" "*", Resource.mk "*:*" "*"]).1
      (Resource.mk "*:*" "*") (by decide) rfl,
   (c7_black_default env0 [Resource.mk "agent:id" "*", Resource.mk "*:*" "*"]).2
      "agent:id" (by decide)⟩

/-! ### Claim C3: mode duality -/

theorem sdiff_sdiff_union (a b c : Finset String) :
    (a \ b) \ c = a \ (b ∪ c) := by
  ext x
  simp [Finset.mem_sdiff, Finset.mem_union]
  tauto

theorem ensureKey_of_lookup_some (fm : PermMap) (k : String) (s : Finset String)
    (h : pmLookup fm k = some s) : ensureKey fm k = fm := by
  unfold ensureKey
  rw [if_pos (show pmHasKey fm k = true by unfold pmHasKey; rw [h]; rfl)]

theorem ensureKey_of_lookup_none (fm : PermMap) (k : String)
    (h : pmLookup fm k = Option.none) : ensureKey fm k = pmSet fm k ∅ := by
  unfold ensureKey
  rw [if_neg (show ¬ pmHasKey fm k = true by unfold pmHasKey; rw [h]; simp)]

theorem bme_of_mem (env : Env) (fm : PermMap) (id : String)
    (neg : Finset String) (h : id ∈ neg) :
    _black_mode_expansion env fm id neg = (fm, neg) := by
  unfold _black_mode_expansion
  rw [if_pos h]

theorem bme_of_not_mem (env : Env) (fm : PermMap) (id : String)
    (neg : Finset String) (h : id ∉ neg) :
    _black_mode_expansion env fm id neg =
      (pmSet fm id (fullExpansion env id), insert id neg) := by
  unfold _black_mode_expansion fullExpansion
  rw [if_neg h]

theorem accExp_map_flip (env : Env) (p : String)
    (l : List (Resource × String)) :
    accExp env p (l.map flipDeny) = accExp env p l := by
  induction l with
  | nil => rfl
  | cons s rest ih => simp only [List.map_cons, accExp, flipDeny, ih]

theorem white_fold_acc (env : Env) (req : PermMap) (p : String)
    (hreq : pmLookup req p = some {"*"}) (hp : p ≠ "*:*") :
    ∀ (l : List (Resource × String)) (st : PermMap × Finset String),
      (∀ s ∈ l, s.2 = "allow") →
      pmGetD ((l.foldl (ppStep env "white" req) st).1) p =
        pmGetD st.1 p ∪ accExp env p l := by
  intro l
  induction l with
  | nil => intro st _; simp [accExp]
  | cons s rest ih =>
      intro st hall
      have hsa : s.2 = "allow" := hall s (List.mem_cons_self s rest)
      have hrest : ∀ t ∈ rest, t.2 = "allow" :=
        fun t ht => hall t (List.mem_cons_of_mem s ht)
      rw [List.foldl_cons, ih _ hrest]
      by_cases hid : remapId s.1.pfx = p
      · have hstep : pmGetD (ppStep env "white" req st s).1 p =
            pmGetD st.1 p ∪ _expand_resource env s.1 := by
          simp only [ppStep, ppApply]
          rw [if_neg (show ¬ ("white" : String) = "black" by decide)]
          rw [hid]
          simp only [hreq]
          rw [pmGetD_set_self]
          rw [if_neg (by simp [hp])]
          rw [hsa]
          simp only [_use_expanded_resource]
          simp [pmGetD_ensure_self]
        rw [hstep]
        simp only [accExp]
        rw [if_pos hid, Finset.union_assoc]
      · have hstep : pmGetD (ppStep env "white" req st s).1 p = pmGetD st.1 p := by
          rw [pmGetD, ppStep_lookup_other env "white" req st s hid]
          rfl
        rw [hstep]
        simp only [accExp]
        rw [if_neg hid, Finset.empty_union]

theorem expand_star_eq (env : Env) (s : Resource × String) (p : String)
    (hid : remapId s.1.pfx = p) (hv : s.1.value = "*")
    (hgs : ¬(s.1.pfx = "agent:group" ∧ s.1.value = "*")) :
    _expand_resource env s.1 = fullExpansion env p := by
  have hpfx : s.1.pfx ≠ "agent:group" := fun hc => hgs ⟨hc, hv⟩
  have hre : remapId s.1.pfx = s.1.pfx := by unfold remapId; rw [if_neg hpfx]
  have hidp : s.1.pfx = p := by rw [hre] at hid; exact hid
  have hres : s.1 = Resource.mk p "*" := by
    have : s.1 = Resource.mk s.1.pfx s.1.value := rfl
    rw [this, hidp, hv]
  rw [hres]
  rfl

theorem black_step_touch (env : Env) (req : PermMap) (p : String)
    (hreq : pmLookup req p = some {"*"}) (hp : p ≠ "*:*")
    (st : PermMap × Finset String) (s : Resource × String)
    (hid : remapId s.1.pfx = p) (hsd : s.2 = "deny")
    (hmem : p ∈ st.2) (B : Finset String)
    (hlook : pmLookup st.1 p = some B) :
    pmLookup (ppStep env "black" req st s).1 p =
      some (if s.1.value = "*" then ∅ else B \ _expand_resource env s.1) ∧
    (ppStep env "black" req st s).2 = st.2 := by
  simp only [ppStep, if_true]
  rw [hid]
  rw [ensureKey_of_lookup_some st.1 p B hlook]
  rw [bme_of_mem env st.1 p st.2 hmem]
  constructor
  · simp only [ppApply]
    simp only [hreq]
    rw [pmLookup_set_self]
    rw [hsd]
    rw [if_neg (by simp [hp])]
    simp only [_use_expanded_resource]
    by_cases hv : s.1.value = "*"
    · rw [if_pos hv, hv]
      simp [pmGetD, hlook]
    · rw [if_neg hv]
      have hflag : (s.1.value == "*" && ("deny" == "deny" : Bool)) = false := by
        simp [hv]
      rw [hflag]
      simp [pmGetD, hlook]
  · rfl

theorem black_step_touch_first (env : Env) (req : PermMap) (p : String)
    (hreq : pmLookup req p = some {"*"}) (hp : p ≠ "*:*")
    (st : PermMap × Finset String) (s : Resource × String)
    (hid : remapId s.1.pfx = p) (hsd : s.2 = "deny")
    (hmem : p ∉ st.2) (hlook : pmLookup st.1 p = Option.none) :
    pmLookup (ppStep env "black" req st s).1 p =
      some (if s.1.value = "*" then ∅
            else fullExpansion env p \ _expand_resource env s.1) ∧
    (ppStep env "black" req st s).2 = insert p st.2 := by
  simp only [ppStep, if_true]
  rw [hid]
  rw [ensureKey_of_lookup_none st.1 p hlook]
  rw [bme_of_not_mem env (pmSet st.1 p ∅) p st.2 hmem]
  constructor
  · simp only [ppApply]
    simp only [hreq]
    rw [pmLookup_set_self]
    rw [hsd]
    rw [if_neg (by simp [hp])]
    simp only [_use_expanded_resource]
    by_cases hv : s.1.value = "*"
    · rw [if_pos hv, hv]
      simp [pmGetD, pmLookup_set_self]
    · rw [if_neg hv]
      have hflag : (s.1.value == "*" && ("deny" == "deny" : Bool)) = false := by
        simp [hv]
      rw [hflag]
      simp [pmGetD, pmLookup_set_self]
  · rfl

theorem black_fold_acc (env : Env) (req : PermMap) (p : String)
    (hreq : pmLookup req p = some {"*"}) (hp : p ≠ "*:*") :
    ∀ (l : List (Resource × String)) (st : PermMap × Finset String)
      (C : Finset String),
      (∀ s ∈ l, s.2 = "deny") →
      (∀ s ∈ l, ¬(s.1.pfx = "agent:group" ∧ s.1.value = "*")) →
      ((p ∈ st.2 → pmLookup st.1 p = some (fullExpansion env p \ C) →
        pmLookup ((l.foldl (ppStep env "black" req) st).1) p =
          some (fullExpansion env p \ (C ∪ accExp env p l))) ∧
       (p ∉ st.2 → pmLookup st.1 p = Option.none →
        pmLookup ((l.foldl (ppStep env "black" req) st).1) p =
          (if l.any (fun s => remapId s.1.pfx == p)
           then some (fullExpansion env p \ accExp env p l)
           else Option.none))) := by
  intro l
  induction l with
  | nil =>
      intro st C _ _
      constructor
      · intro _ hlook
        simpa [accExp] using hlook
      · intro _ hlook
        simpa [accExp] using hlook
  | cons s rest ih =>
      intro st C hdeny hg
      have hsd : s.2 = "deny" := hdeny s (List.mem_cons_self s rest)
      have hgs : ¬(s.1.pfx = "agent:group" ∧ s.1.value = "*") :=
        hg s (List.mem_cons_self s rest)
      have hdrest : ∀ t ∈ rest, t.2 = "deny" :=
        fun t ht => hdeny t (List.mem_cons_of_mem s ht)
      have hgrest : ∀ t ∈ rest, ¬(t.1.pfx = "agent:group" ∧ t.1.value = "*") :=
        fun t ht => hg t (List.mem_cons_of_mem s ht)
      constructor
      · intro hmem hlook
        rw [List.foldl_cons]
        by_cases hid : remapId s.1.pfx = p
        · obtain ⟨hstep, hneg⟩ := black_step_touch env req p hreq hp st s hid
            hsd hmem (fullExpansion env p \ C) hlook
          have hlook2 : pmLookup (ppStep env "black" req st s).1 p =
              some (fullExpansion env p \ (C ∪ _expand_resource env s.1)) := by
            rw [hstep]
            by_cases hv : s.1.value = "*"
            · rw [if_pos hv]
              rw [expand_star_eq env s p hid hv hgs]
              rw [Finset.sdiff_eq_empty_iff_subset.mpr Finset.subset_union_right]
            · rw [if_neg hv, sdiff_sdiff_union]
          have hmem2 : p ∈ (ppStep env "black" req st s).2 := by
            rw [hneg]; exact hmem
          rw [(ih (ppStep env "black" req st s)
            (C ∪ _expand_resource env s.1) hdrest hgrest).1 hmem2 hlook2]
          simp only [accExp]
          rw [if_pos hid, Finset.union_assoc]
        · have hmem2 : p ∈ (ppStep env "black" req st s).2 :=
            (ppStep_neg_other env "black" req st s hid).mpr hmem
          have hlook2 : pmLookup (ppStep env "black" req st s).1 p =
              some (fullExpansion env p \ C) := by
            rw [ppStep_lookup_other env "black" req st s hid]; exact hlook
          rw [(ih (ppStep env "black" req st s) C hdrest hgrest).1 hmem2 hlook2]
          simp only [accExp]
          rw [if_neg hid, Finset.empty_union]
      · intro hmem hlook
        rw [List.foldl_cons]
        by_cases hid : remapId s.1.pfx = p
        · obtain ⟨hstep, hneg⟩ := black_step_touch_first env req p hreq hp st s
            hid hsd hmem hlook
          have hlook2 : pmLookup (ppStep env "black" req st s).1 p =
              some (fullExpansion env p \ _expand_resource env s.1) := by
            rw [hstep]
            by_cases hv : s.1.value = "*"
            · rw [if_pos hv]
              rw [expand_star_eq env s p hid hv hgs]
              rw [Finset.sdiff_self]
            · rw [if_neg hv]
          have hmem2 : p ∈ (ppStep env "black" req st s).2 := by
            rw [hneg]; exact Finset.mem_insert_self p st.2
          rw [(ih (ppStep env "black" req st s)
            (_expand_resource env s.1) hdrest hgrest).1 hmem2 hlook2]
          have hb : (remapId s.1.pfx == p) = true := by simp [hid]
          simp only [List.any_cons, hb, Bool.true_or, if_true]
          simp only [accExp]
          rw [if_pos hid]
        · have hmem2 : p ∉ (ppStep env "black" req st s).2 :=
            fun hc => hmem ((ppStep_neg_other env "black" req st s hid).mp hc)
          have hlook2 : pmLookup (ppStep env "black" req st s).1 p =
              Option.none := by
            rw [ppStep_lookup_other env "black" req st s hid]; exact hlook
          rw [(ih (ppStep env "black" req st s) C hdrest hgrest).2 hmem2 hlook2]
          have hb : (remapId s.1.pfx == p) = false := by simp [hid]
          simp only [List.any_cons, hb, Bool.false_or]
          simp only [accExp]
          rw [if_neg hid, Finset.empty_union]

theorem proc_eq (env : Env) (mode : String) (rs : List Resource)
    (stmts : List (Resource × String)) (final0 : PermMap) :
    _permissions_processing env mode rs stmts final0 =
      (if stmts.length = 0 ∧ mode = "black"
       then rs.foldl (blackDefaultStep env) final0
       else
         (if mode = "black"
          then _black_mode_sanitize
            ((stmts.foldl (ppStep env mode (buildReq rs)) (final0, ∅)).1)
            (buildReq rs)
          else (stmts.foldl (ppStep env mode (buildReq rs)) (final0, ∅)).1)) :=
  rfl

/-- Claim C3, counterexample: with required values `{001,002}` (no wildcard)
and the single allow statement `agent:id:003` flipped to deny for the black
run, white resolves to `∅` while black resolves to `{001,002}`; the two sets
are not complementary relative to the full agent-id expansion
`{001,002,003}`, and black is not even the relative complement of white. -/
theorem c3_counterexample :
    pmGetD (_permissions_processing env0 "white"
      [Resource.mk "agent:id" "001", Resource.mk "agent:id" "002"]
      [(Resource.mk "agent:id" "003", "allow")] []) "agent:id" = ∅ ∧
    pmGetD (_permissions_processing env0 "black"
      [Resource.mk "agent:id" "001", Resource.mk "agent:id" "002"]
      [(Resource.mk "agent:id" "003", "deny")] []) "agent:id" = {"001", "002"} ∧
    pmGetD (_permissions_processing env0 "white"
        [Resource.mk "agent:id" "001", Resource.mk "agent:id" "002"]
        [(Resource.mk "agent:id" "003", "allow")] []) "agent:id" ∪
      pmGetD (_permissions_processing env0 "black"
        [Resource.mk "agent:id" "001", Resource.mk "agent:id" "002"]
        [(Resource.mk "agent:id" "003", "deny")] []) "agent:id" ≠
      fullExpansion env0 "agent:id" ∧
    pmGetD (_permissions_processing env0 "black"
        [Resource.mk "agent:id" "001", Resource.mk "agent:id" "002"]
        [(Resource.mk "agent:id" "003", "deny")] []) "agent:id" ≠
      fullExpansion env0 "agent:id" \
        pmGetD (_permissions_processing env0 "white"
          [Resource.mk "agent:id" "001", Resource.mk "agent:id" "002"]
          [(Resource.mk "agent:id" "003", "allow")] []) "agent:id" := by
  decide

/-- Claim C3 (amended): mode duality holds prefix-wise under the conditions
the code imposes: for a prefix `p` other than `*:*` whose required-value set
is exactly `{*}`, touched by at least one statement, with all-allow white
statements none of which is a full-wildcard `agent:group` statement, running
black mode on the effect-flipped statements yields exactly the complement of
the white-mode result relative to the full wildcard expansion of `p`. -/
theorem c3_amended (env : Env) (rs : List Resource)
    (stmtsW : List (Resource × String)) (p : String)
    (hall : ∀ s ∈ stmtsW, s.2 = "allow")
    (hng : ∀ s ∈ stmtsW, ¬(s.1.pfx = "agent:group" ∧ s.1.value = "*"))
    (hreq : pmLookup (buildReq rs) p = some {"*"})
    (hp : p ≠ "*:*")
    (ht : stmtsW.any (fun s => remapId s.1.pfx == p) = true) :
    pmGetD (_permissions_processing env "black" rs (stmtsW.map flipDeny) []) p =
      fullExpansion env p \
        pmGetD (_permissions_processing env "white" rs stmtsW []) p := by
  have hwhite : pmGetD (_permissions_processing env "white" rs stmtsW []) p =
      accExp env p stmtsW := by
    rw [proc_eq]
    rw [if_neg (by simp)]
    rw [if_neg (by simp)]
    rw [white_fold_acc env (buildReq rs) p hreq hp stmtsW ([], ∅) hall]
    simp [pmGetD, pmLookup]
  have hne : stmtsW ≠ [] := by
    intro hc; rw [hc] at ht; simp at ht
  have hanyB : (stmtsW.map flipDeny).any
      (fun s => remapId s.1.pfx == p) = true := by
    rw [List.any_map]
    exact ht
  have hd : ∀ s ∈ stmtsW.map flipDeny, s.2 = "deny" := by
    intro s hs
    rcases List.mem_map.mp hs with ⟨t, _, rfl⟩
    rfl
  have hg2 : ∀ s ∈ stmtsW.map flipDeny,
      ¬(s.1.pfx = "agent:group" ∧ s.1.value = "*") := by
    intro s hs
    rcases List.mem_map.mp hs with ⟨t, ht2, rfl⟩
    exact hng t ht2
  have hblack := (black_fold_acc env (buildReq rs) p hreq hp
    (stmtsW.map flipDeny) ([], ∅) ∅ hd hg2).2 (Finset.not_mem_empty p) rfl
  rw [if_pos hanyB, accExp_map_flip] at hblack
  rw [proc_eq]
  rw [if_neg (by
    intro hc
    have h0 := hc.1
    rw [List.length_map] at h0
    exact hne (List.length_eq_zero.mp h0))]
  rw [if_pos rfl]
  rw [pmGetD, san_lookup_some _ _ p _ _ hblack hreq]
  rw [if_neg (by simp)]
  rw [hwhite]
  rfl

/-- Witness for `c3_amended`: required `agent:id:*`, single allow statement
for agent `001`; black on the flipped statement yields the complement
`{002,003}` of white's `{001}` in the agent universe. -/
theorem c3_amended_witness :
    pmGetD (_permissions_processing env0 "black" [Resource.mk "agent:id" "*"]
      ([(Resource.mk "agent:id" "001", "allow")].map flipDeny) []) "agent:id" =
      fullExpansion env0 "agent:id" \
        pmGetD (_permissions_processing env0 "white"
          [Resource.mk "agent:id" "*"]
          [(Resource.mk "agent:id" "001", "allow")] []) "agent:id" :=
  c3_amended env0 [Resource.mk "agent:id" "*"]
    [(Resource.mk "agent:id" "001", "allow")] "agent:id"
    (by decide) (by decide) (by decide) (by decide) (by decide)

/-! ### Claim C4: group-grant remapping, Scenario D -/

/-- Claim C4, counterexample: Scenario D as specified is false on the code.
With required `{agent:group:groupA}` (group directory: `groupA = {010,011}`)
and the single white-mode statement `(agent:group:groupA, allow)`, the
statement's prefix is remapped to `agent:id`, the required-value lookup for
`agent:id` raises `KeyError` (only `agent:group` was required), and the
freshly created empty `agent:id` entry is popped: the resolver does NOT
return `{agent:id: {010,011}}` — there is no `agent:id` entry at all. -/
theorem c4_counterexample :
    pmLookup (_permissions_processing env0 "white"
      [Resource.mk "agent:group" "groupA"]
      [(Resource.mk "agent:group" "groupA", "allow")] []) "agent:id" =
      Option.none := by
  decide

/-- Claim C4 (amended): in white mode, with required `{agent:group:groupA}`
(`groupA = {010,011}` in the directory) and the caller statement
`(agent:group:groupA, allow)`, the resolver returns the empty permission map
(the remapped `agent:id` entry is discarded because the required prefix is
`agent:group`), and the gate consequently rejects the call with
`WazuhError(4000)` (AccessDenied). -/
theorem c4_amended :
    _permissions_processing env0 "white" [Resource.mk "agent:group" "groupA"]
      [(Resource.mk "agent:group" "groupA", "allow")] [] = [] ∧
    wrapper env0 "white" ["agent:read"]
      [Template.holder "agent:group" "group_list"]
      [("group_list", PyVal.vlist ["groupA"])]
      [("agent:read", [(Resource.mk "agent:group" "groupA", "allow")])]
      (fun _ => (0 : Nat)) (fun r _ _ _ _ => r) = Except.error WErr.e4000 :=
  ⟨by decide, rfl⟩

/-! ### Claim C6: backstop then targeted deny, Scenario C -/

/-- Claim C6 (Scenario C): in white mode with required `{agent:id:001}` and
ordered statements `[(agent:id:*, allow), (agent:id:001, deny)]`, the
resolver's final set for `agent:id` is empty, and the gate rejects the call
with `WazuhError(4000)` (AccessDenied). -/
theorem c6_scenario_c :
    pmGetD (_permissions_processing env0 "white" [Resource.mk "agent:id" "001"]
      [(Resource.mk "agent:id" "*", "allow"),
       (Resource.mk "agent:id" "001", "deny")] []) "agent:id" = ∅ ∧
    wrapper env0 "white" ["agent:read"]
      [Template.holder "agent:id" "agent_list"]
      [("agent_list", PyVal.vlist ["001"])]
      [("agent:read", [(Resource.mk "agent:id" "*", "allow"),
                       (Resource.mk "agent:id" "001", "deny")])]
      (fun _ => (0 : Nat)) (fun r _ _ _ _ => r) = Except.error WErr.e4000 :=
  ⟨by decide, rfl⟩

/-! ### Claim C9: resource-expansion case analysis -/

/-- Claim C9: `_expand_resource` delegates to the group-membership
collaborator whenever the prefix is `agent:group` (wildcard or concrete
value); for value `*` with a prefix other than the five enumerable prefixes
it returns the empty set; for any other concrete value it returns the
singleton of that value. -/
theorem c9_expand_cases (env : Env) (r : Resource) :
    (r.pfx = "agent:group" →
      _expand_resource env r = env.expandGroup r.value) ∧
    (r.pfx ≠ "agent:group" → r.value = "*" →
      r.pfx ≠ "agent:id" → r.pfx ≠ "group:id" → r.pfx ≠ "role:id" →
      r.pfx ≠ "policy:id" → r.pfx ≠ "user:id" →
      _expand_resource env r = ∅) ∧
    (r.pfx ≠ "agent:group" → r.value ≠ "*" →
      _expand_resource env r = {r.value}) := by
  refine ⟨fun h1 => ?_, fun h1 h2 h3 h4 h5 h6 h7 => ?_, fun h1 h2 => ?_⟩
  · unfold _expand_resource
    rw [if_pos h1]
  · unfold _expand_resource
    rw [if_neg h1, if_pos h2, if_neg h3, if_neg h4, if_neg h5, if_neg h6,
      if_neg h7]
  · unfold _expand_resource
    rw [if_neg h1, if_neg h2]

/-- Witness for `c9_expand_cases` at the three kinds of input. -/
theorem c9_expand_cases_witness :
    _expand_resource env0 (Resource.mk "agent:group" "groupA") =
      env0.expandGroup "groupA" ∧
    _expand_resource env0 (Resource.mk "node:id" "*") = ∅ ∧
    _expand_resource env0 (Resource.mk "agent:id" "007") = {"007"} :=
  ⟨(c9_expand_cases env0 (Resource.mk "agent:group" "groupA")).1 rfl,
   (c9_expand_cases env0 (Resource.mk "node:id" "*")).2.1 (by decide) rfl
     (by decide) (by decide) (by decide) (by decide) (by decide),
   (c9_expand_cases env0 (Resource.mk "agent:id" "007")).2.2
     (by decide) (by decide)⟩

/-! ### Claim C10: the administrative mode switch -/

/-- Claim C10: `switch_mode` raises `TypeError` exactly when its argument is
neither `white` nor `black`; on raising, the stored mode is unchanged, and on
a valid argument the stored mode afterwards equals the argument. -/
theorem c10_switch_mode (current m : String) :
    ((switch_mode current m).2 = true ↔ (m ≠ "white" ∧ m ≠ "black")) ∧
    ((switch_mode current m).2 = true → (switch_mode current m).1 = current) ∧
    ((switch_mode current m).2 = false → (switch_mode current m).1 = m) := by
  unfold switch_mode
  by_cases h : m ≠ "white" ∧ m ≠ "black"
  · rw [if_pos h]
    exact ⟨⟨fun _ => h, fun _ => rfl⟩, fun _ => rfl, fun hc => absurd hc (by simp)⟩
  · rw [if_neg h]
    exact ⟨⟨fun hc => absurd hc (by simp), fun hc => absurd hc h⟩,
      fun hc => absurd hc (by simp), fun _ => rfl⟩

/-- Witness for `c10_switch_mode`: a rejected switch keeps the stored mode, a
valid switch stores the argument. -/
theorem c10_switch_mode_witness :
    (switch_mode "black" "purple").1 = "black" ∧
    ((switch_mode "black" "purple").2 = true) ∧
    (switch_mode "white" "black").1 = "black" :=
  ⟨(c10_switch_mode "black" "purple").2.1 (by decide),
   ((c10_switch_mode "black" "purple").1).mpr (by decide),
   (c10_switch_mode "white" "black").2.2 (by decide)⟩

/-! ### Claim C8: placeholder parsing -/

theorem parse_fold_cons (kw : Kwargs) (st : ParseState) (t : Template)
    (ts : List Template) :
    List.foldlM (procResource kw) st (t :: ts) =
      (match procResource kw st t with
       | Except.error e => Except.error e
       | Except.ok st1 => List.foldlM (procResource kw) st1 ts) := by
  rw [List.foldlM_cons]
  cases h : procResource kw st t <;> rfl

theorem procResource_error_of (kw : Kwargs) (st : ParseState)
    (pfx name : String) (hk : kwLookup kw name = some (PyVal.vlist [])) :
    procResource kw st (Template.holder pfx name) =
      Except.error (WErr.e4015 name) := by
  simp [procResource, hk]

theorem procResource_error_char (kw : Kwargs) (st : ParseState) (t : Template)
    (e : WErr) (h : procResource kw st t = Except.error e) :
    ∃ pfx name, t = Template.holder pfx name ∧
      kwLookup kw name = some (PyVal.vlist []) ∧ e = WErr.e4015 name := by
  cases t with
  | static pfx value => exact absurd h (by simp [procResource])
  | holder pfx name =>
      simp only [procResource] at h
      split at h
      · exact absurd h (by simp)
      · rename_i xs heq
        split at h
        · rename_i hxs
          subst hxs
          injection h with h
          exact ⟨pfx, name, rfl, heq, h.symm⟩
        · exact absurd h (by simp)
      · exact absurd h (by simp)
      · rename_i s heq
        split at h
        · exact absurd h (by simp)
        · exact absurd h (by simp)

theorem procResource_ok_not_empty (kw : Kwargs) (st : ParseState)
    (t : Template) (st1 : ParseState)
    (h : procResource kw st t = Except.ok st1) :
    ∀ pfx name, t = Template.holder pfx name →
      kwLookup kw name ≠ some (PyVal.vlist []) := by
  intro pfx name ht hk
  subst ht
  rw [procResource_error_of kw st pfx name hk] at h
  exact absurd h (by simp)

theorem procResource_res_mono (kw : Kwargs) (st : ParseState) (t : Template)
    (st1 : ParseState) (h : procResource kw st t = Except.ok st1) :
    ∀ x ∈ st.res_list, x ∈ st1.res_list := by
  cases t with
  | static pfx value =>
      simp only [procResource] at h
      injection h with h
      subst h
      intro x hx
      simp [hx]
  | holder pfx name =>
      simp only [procResource] at h
      split at h
      · injection h with h; subst h; intro x hx; simp [hx]
      · split at h
        · exact absurd h (by simp)
        · injection h with h; subst h; intro x hx; simp [hx]
      · injection h with h; subst h; intro x hx; simp [hx]
      · split at h
        · injection h with h; subst h; intro x hx; simp [hx]
        · injection h with h; subst h; intro x hx; simp [hx]

theorem procResource_flag (kw : Kwargs) (st : ParseState) (t : Template)
    (st1 : ParseState) (h : procResource kw st t = Except.ok st1) :
    st1.add_denied = (setsFlag kw t).getD st.add_denied := by
  cases t with
  | static pfx value =>
      simp only [procResource] at h
      injection h with h
      subst h
      rfl
  | holder pfx name =>
      simp only [procResource] at h
      simp only [setsFlag]
      split at h
      · injection h with h
        subst h
        rfl
      · split at h
        · exact absurd h (by simp)
        · injection h with h
          subst h
          rfl
      · injection h with h
        subst h
        rfl
      · rename_i s heq
        split at h
        · rename_i hs
          injection h with h
          subst h
          rw [if_pos hs]
          rfl
        · rename_i hs
          injection h with h
          subst h
          rw [if_neg hs]
          rfl

theorem procResource_absent (kw : Kwargs) (st : ParseState)
    (pfx name : String) (st1 : ParseState)
    (hk : kwLookup kw name = Option.none)
    (h : procResource kw st (Template.holder pfx name) = Except.ok st1) :
    Resource.mk pfx "*" ∈ st1.res_list := by
  simp only [procResource] at h
  split at h
  · injection h with h
    subst h
    simp
  · rename_i xs heq
    rw [hk] at heq
    exact absurd heq (by simp)
  · rename_i heq
    rw [hk] at heq
    exact absurd heq (by simp)
  · rename_i s heq
    rw [hk] at heq
    exact absurd heq (by simp)

theorem parse_fold_res_mono (kw : Kwargs) :
    ∀ (ts : List Template) (st st' : ParseState),
      List.foldlM (procResource kw) st ts = Except.ok st' →
      ∀ x ∈ st.res_list, x ∈ st'.res_list := by
  intro ts
  induction ts with
  | nil =>
      intro st st' h
      rw [List.foldlM_nil] at h
      injection h with h
      subst h
      intro x hx
      exact hx
  | cons t ts ih =>
      intro st st' h
      rw [parse_fold_cons] at h
      cases hstep : procResource kw st t with
      | error e => rw [hstep] at h; simp at h
      | ok st1 =>
          rw [hstep] at h
          intro x hx
          exact ih st1 st' h x (procResource_res_mono kw st t st1 hstep x hx)

theorem parse_fold_flag (kw : Kwargs) :
    ∀ (ts : List Template) (st st' : ParseState),
      List.foldlM (procResource kw) st ts = Except.ok st' →
      st'.add_denied =
        ts.foldl (fun b t => (setsFlag kw t).getD b) st.add_denied := by
  intro ts
  induction ts with
  | nil =>
      intro st st' h
      rw [List.foldlM_nil] at h
      injection h with h
      subst h
      rfl
  | cons t ts ih =>
      intro st st' h
      rw [parse_fold_cons] at h
      cases hstep : procResource kw st t with
      | error e => rw [hstep] at h; simp at h
      | ok st1 =>
          rw [hstep] at h
          rw [List.foldl_cons]
          rw [ih st1 st' h]
          rw [procResource_flag kw st t st1 hstep]

theorem parse_fold_emits (kw : Kwargs) :
    ∀ (ts : List Template) (st st' : ParseState),
      List.foldlM (procResource kw) st ts = Except.ok st' →
      ∀ pfx name, Template.holder pfx name ∈ ts →
        kwLookup kw name = Option.none →
        Resource.mk pfx "*" ∈ st'.res_list := by
  intro ts
  induction ts with
  | nil =>
      intro st st' _ pfx name hmem _
      simp at hmem
  | cons t ts ih =>
      intro st st' h pfx name hmem hk
      rw [parse_fold_cons] at h
      cases hstep : procResource kw st t with
      | error e => rw [hstep] at h; simp at h
      | ok st1 =>
          rw [hstep] at h
          rcases List.mem_cons.mp hmem with rfl | hmem2
          · exact parse_fold_res_mono kw ts st1 st' h _
              (procResource_absent kw st pfx name st1 hk hstep)
          · exact ih st1 st' h pfx name hmem2 hk

theorem parse_fold_error_iff (kw : Kwargs) :
    ∀ (ts : List Template) (st : ParseState),
      (∃ n, List.foldlM (procResource kw) st ts =
        Except.error (WErr.e4015 n)) ↔
      (∃ pfx name, Template.holder pfx name ∈ ts ∧
        kwLookup kw name = some (PyVal.vlist [])) := by
  intro ts
  induction ts with
  | nil =>
      intro st
      constructor
      · intro ⟨n, hn⟩
        rw [List.foldlM_nil] at hn
        exact Except.noConfusion hn
      · intro ⟨pfx, name, hmem, _⟩
        simp at hmem
  | cons t ts ih =>
      intro st
      rw [parse_fold_cons]
      cases hstep : procResource kw st t with
      | error e =>
          obtain ⟨pfx, name, ht, hk, he⟩ :=
            procResource_error_char kw st t e hstep
          subst ht
          subst he
          constructor
          · intro _
            exact ⟨pfx, name, List.mem_cons_self _ _, hk⟩
          · intro _
            exact ⟨name, rfl⟩
      | ok st1 =>
          constructor
          · intro hex
            rcases (ih st1).mp hex with ⟨pfx, name, hmem, hk⟩
            exact ⟨pfx, name, List.mem_cons_of_mem t hmem, hk⟩
          · intro ⟨pfx, name, hmem, hk⟩
            rcases List.mem_cons.mp hmem with rfl | hmem2
            · exact absurd hk
                (procResource_ok_not_empty kw st _ st1 hstep pfx name rfl)
            · exact (ih st1).mpr ⟨pfx, name, hmem2, hk⟩

theorem grp_eq_ok (actions : List String) (resources : List Template)
    (kw : Kwargs) (st : ParseState)
    (hf : List.foldlM (procResource kw) (ParseState.mk [] [] true) resources =
      Except.ok st) :
    _get_required_permissions actions resources kw =
      Except.ok (st.target_params,
        actions.map (fun a => (a, st.res_list)), st.add_denied) := by
  unfold _get_required_permissions
  rw [hf]

theorem grp_eq_err (actions : List String) (resources : List Template)
    (kw : Kwargs) (e : WErr)
    (hf : List.foldlM (procResource kw) (ParseState.mk [] [] true) resources =
      Except.error e) :
    _get_required_permissions actions resources kw = Except.error e := by
  unfold _get_required_permissions
  rw [hf]

/-- Claim C8, counterexample: the `add_denied` flag is shared across all
templates.  With templates `agent:id:{a}` and `group:id:{b}` and call
arguments binding only `b` (to `None`), the name `a` is entirely absent, yet
the parser returns `add_denied = true` because the later `b` template resets
the flag — refuting "when name is absent it returns add_denied = false". -/
theorem c8_counterexample :
    kwLookup [("b", PyVal.pynone)] "a" = Option.none ∧
    _get_required_permissions ["act"]
      [Template.holder "agent:id" "a", Template.holder "group:id" "b"]
      [("b", PyVal.pynone)] =
      Except.ok (["a", "b"],
        [("act", [Resource.mk "agent:id" "*", Resource.mk "group:id" "*"])],
        true) :=
  ⟨rfl, rfl⟩

/-- Claim C8 (amended): the parser fails — with `MissingParameter`
(`WazuhError 4015`, carrying the offending name) — exactly when some
placeholder template's name is bound in the call arguments to an empty
sequence.  On success, a template whose placeholder name is entirely absent
emits `prefix:*` into every action's required-resource list, and it sets the
shared `add_denied` flag to `false` at its position; the returned
`add_denied` is the value of the last flag assignment over the template list
(default `true`), so a later template bound to `None` or `'*'` overrides an
earlier absent-name `false`. -/
theorem c8_amended (actions : List String) (res : List Template)
    (kw : Kwargs) :
    ((∃ n, _get_required_permissions actions res kw =
        Except.error (WErr.e4015 n)) ↔
      (∃ pfx name, Template.holder pfx name ∈ res ∧
        kwLookup kw name = some (PyVal.vlist []))) ∧
    (∀ tps rp ad, _get_required_permissions actions res kw =
        Except.ok (tps, rp, ad) →
      (ad = res.foldl (fun b t => (setsFlag kw t).getD b) true) ∧
      (∀ pfx name, Template.holder pfx name ∈ res →
        kwLookup kw name = Option.none →
        ∀ a rl, (a, rl) ∈ rp → Resource.mk pfx "*" ∈ rl)) := by
  constructor
  · cases hf : List.foldlM (procResource kw) (ParseState.mk [] [] true)
        res with
    | error e =>
        have hpp := grp_eq_err actions res kw e hf
        constructor
        · intro ⟨n, hn⟩
          rw [hpp] at hn
          injection hn with hn
          subst hn
          exact (parse_fold_error_iff kw res _).mp ⟨n, hf⟩
        · intro hex
          rcases (parse_fold_error_iff kw res _).mpr hex with ⟨n, hn⟩
          rw [hf] at hn
          injection hn with hn
          exact ⟨n, by rw [hpp, hn]⟩
    | ok st =>
        have hpp := grp_eq_ok actions res kw st hf
        constructor
        · intro ⟨n, hn⟩
          rw [hpp] at hn
          exact absurd hn (by simp)
        · intro hex
          rcases (parse_fold_error_iff kw res _).mpr hex with ⟨n, hn⟩
          rw [hf] at hn
          simp at hn
  · intro tps rp ad h
    cases hf : List.foldlM (procResource kw) (ParseState.mk [] [] true)
        res with
    | error e =>
        rw [grp_eq_err actions res kw e hf] at h
        exact absurd h (by simp)
    | ok st =>
        rw [grp_eq_ok actions res kw st hf] at h
        injection h with h
        have h23 := congrArg Prod.snd h
        have h2 : actions.map (fun a => (a, st.res_list)) = rp :=
          congrArg Prod.fst h23
        have h3 : st.add_denied = ad := congrArg Prod.snd h23
        constructor
        · rw [← h3]
          exact parse_fold_flag kw res _ st hf
        · intro pfx name hmem hk a rl hrl
          rw [← h2] at hrl
          rcases List.mem_map.mp hrl with ⟨a0, _, ha0⟩
          have hrl2 : rl = st.res_list := by
            injection ha0 with ha1 ha2
            exact ha2.symm
          rw [hrl2]
          exact parse_fold_emits kw res _ st hf pfx name hmem hk

/-- Witness for `c8_amended`: a single absent placeholder yields
`add_denied = false` and emits the full-wildcard resource. -/
theorem c8_amended_witness :
    (false = [Template.holder "agent:id" "a"].foldl
      (fun b t => (setsFlag ([] : Kwargs) t).getD b) true) ∧
    Resource.mk "agent:id" "*" ∈ [Resource.mk "agent:id" "*"] := by
  have h := (c8_amended ["act"] [Template.holder "agent:id" "a"] []).2
    ["a"] [("act", [Resource.mk "agent:id" "*"])] false rfl
  exact ⟨h.1, h.2 "agent:id" "a" (List.mem_singleton_self _)
    rfl "act" [Resource.mk "agent:id" "*"] (List.mem_singleton_self _)⟩

/-! ### Claim C2: the authorization gate -/

theorem gateNarrow_cons (allow : PermMap) (t : String) (ts : List String)
    (idx : Nat) (kw : Kwargs) :
    gateNarrow allow (t :: ts) idx kw =
      (match (allow.map Prod.fst).get? idx with
       | Option.none => Except.error ()
       | some k =>
           if pmGetD allow k = ∅ then Except.error ()
           else gateNarrow allow ts (idx + 1)
             (if t ≠ "*" then
                kwSet kw t (PyVal.vlist ((pmGetD allow k).sort (fun a b => a ≤ b)))
              else kw)) :=
  rfl

theorem deniedAtB_of_none (allow : PermMap) (idx : Nat)
    (hk : (allow.map Prod.fst).get? idx = Option.none) :
    deniedAtB allow idx = true := by
  unfold deniedAtB
  rw [hk]

theorem deniedAtB_of_some (allow : PermMap) (idx : Nat) (k : String)
    (hk : (allow.map Prod.fst).get? idx = some k) :
    deniedAtB allow idx = decide (pmGetD allow k = ∅) := by
  unfold deniedAtB
  rw [hk]

theorem gate_err_denies (allow : PermMap) :
    ∀ (ts : List String) (idx : Nat) (kw : Kwargs),
      (gateNarrow allow ts idx kw = Except.error () ↔
        gateDenies allow ts idx = true) := by
  intro ts
  induction ts with
  | nil =>
      intro idx kw
      constructor
      · intro h
        exact Except.noConfusion h
      · intro h
        exact absurd h (by simp [gateDenies])
  | cons t ts ih =>
      intro idx kw
      rw [gateNarrow_cons]
      simp only [gateDenies]
      cases hk : (allow.map Prod.fst).get? idx with
      | none =>
          rw [deniedAtB_of_none allow idx hk]
          simp
      | some k =>
          by_cases hv : pmGetD allow k = ∅
          · rw [deniedAtB_of_some allow idx k hk, decide_eq_true hv]
            simp [hv]
          · rw [deniedAtB_of_some allow idx k hk, decide_eq_false hv]
            simp only [Bool.false_or]
            constructor
            · intro h
              have h2 : (if pmGetD allow k = ∅ then Except.error ()
                  else gateNarrow allow ts (idx + 1)
                    (if t ≠ "*" then
                      kwSet kw t (PyVal.vlist
                        ((pmGetD allow k).sort (fun a b => a ≤ b)))
                     else kw)) = Except.error () := h
              rw [if_neg hv] at h2
              exact (ih (idx + 1) _).mp h2
            · intro h
              show (if pmGetD allow k = ∅ then Except.error ()
                  else gateNarrow allow ts (idx + 1)
                    (if t ≠ "*" then
                      kwSet kw t (PyVal.vlist
                        ((pmGetD allow k).sort (fun a b => a ≤ b)))
                     else kw)) = Except.error ()
              rw [if_neg hv]
              exact (ih (idx + 1) _).mpr h

theorem gateDenies_iff (allow : PermMap) :
    ∀ (ts : List String) (idx : Nat),
      (gateDenies allow ts idx = true ↔
        ∃ j, j < ts.length ∧ deniedAtB allow (idx + j) = true) := by
  intro ts
  induction ts with
  | nil =>
      intro idx
      constructor
      · intro h
        exact absurd h (by simp [gateDenies])
      · intro ⟨j, hj, _⟩
        simp at hj
  | cons t ts ih =>
      intro idx
      simp only [gateDenies, Bool.or_eq_true]
      constructor
      · intro h
        rcases h with h | h
        · exact ⟨0, by simp, by rw [Nat.add_zero]; exact h⟩
        · rcases (ih (idx + 1)).mp h with ⟨j, hj, hd⟩
          exact ⟨j + 1, by simp [Nat.succ_lt_succ hj],
            by rw [show idx + (j + 1) = idx + 1 + j by omega]; exact hd⟩
      · intro ⟨j, hj, hd⟩
        cases j with
        | zero =>
            rw [Nat.add_zero] at hd
            exact Or.inl hd
        | succ j0 =>
            refine Or.inr ((ih (idx + 1)).mpr ⟨j0, ?_, ?_⟩)
            · simpa using hj
            · rw [show idx + 1 + j0 = idx + (j0 + 1) by omega]
              exact hd

theorem wrapper_eq_parsed {α β : Type} (env : Env) (mode : String)
    (actions : List String) (resources : List Template) (kwargs : Kwargs)
    (rbac : Rbac) (tps : List String) (rp : List (String × List Resource))
    (ad : Bool)
    (hparse : _get_required_permissions actions resources kwargs =
      Except.ok (tps, rp, ad))
    (func : Kwargs → α)
    (post : α → Kwargs → PermMap → List String → Bool → β) :
    wrapper env mode actions resources kwargs rbac func post =
      (match gateNarrow (_match_permissions env mode rp rbac) tps 0 kwargs with
       | Except.error _ => Except.error WErr.e4000
       | Except.ok kw2 =>
           Except.ok (post (func kw2) kwargs
             (_match_permissions env mode rp rbac) tps ad)) := by
  unfold wrapper
  rw [hparse]

theorem wrapper_error_iff {α β : Type} (env : Env) (mode : String)
    (actions : List String) (resources : List Template) (kwargs : Kwargs)
    (rbac : Rbac) (tps : List String) (rp : List (String × List Resource))
    (ad : Bool)
    (hparse : _get_required_permissions actions resources kwargs =
      Except.ok (tps, rp, ad))
    (func : Kwargs → α)
    (post : α → Kwargs → PermMap → List String → Bool → β) :
    (wrapper env mode actions resources kwargs rbac func post =
        Except.error WErr.e4000 ↔
      ∃ j, j < tps.length ∧
        deniedAtB (_match_permissions env mode rp rbac) j = true) := by
  rw [wrapper_eq_parsed env mode actions resources kwargs rbac tps rp ad
    hparse func post]
  cases hg : gateNarrow (_match_permissions env mode rp rbac) tps 0 kwargs with
  | error e =>
      have hg0 : gateNarrow (_match_permissions env mode rp rbac) tps 0
          kwargs = Except.error () := hg
      constructor
      · intro _
        rcases (gateDenies_iff (_match_permissions env mode rp rbac) tps 0).mp
          ((gate_err_denies (_match_permissions env mode rp rbac) tps 0
            kwargs).mp hg0) with ⟨j, hj, hd⟩
        rw [Nat.zero_add] at hd
        exact ⟨j, hj, hd⟩
      · intro _
        rfl
  | ok kw2 =>
      constructor
      · intro h
        exact Except.noConfusion h
      · intro ⟨j, hj, hd⟩
        have hd0 : deniedAtB (_match_permissions env mode rp rbac)
            (0 + j) = true := by rw [Nat.zero_add]; exact hd
        have := (gate_err_denies (_match_permissions env mode rp rbac) tps 0
          kwargs).mpr ((gateDenies_iff (_match_permissions env mode rp rbac)
            tps 0).mpr ⟨j, hj, hd0⟩)
        rw [hg] at this
        exact Except.noConfusion this

/-- Claim C2, counterexample: a call whose two placeholder templates share
the prefix `agent:id` parses to two target positions but resolves to a
single-key permission dict; the resolved permitted set for each
required-resource prefix is `{001,002}` — non-empty — yet the gate rejects
the call with `WazuhError(4000)` because reading the second key of the
one-entry dict raises `IndexError`.  Rejection is therefore not equivalent to
"the resolved permitted set for the i-th required-resource prefix is
empty". -/
theorem c2_counterexample :
    wrapper env0 "white" ["a"]
      [Template.holder "agent:id" "x", Template.holder "agent:id" "y"]
      [("x", PyVal.str "001"), ("y", PyVal.str "002")]
      [("a", [(Resource.mk "agent:id" "*", "allow")])]
      (fun _ => (0 : Nat)) (fun r _ _ _ _ => r) = Except.error WErr.e4000 ∧
    _get_required_permissions ["a"]
      [Template.holder "agent:id" "x", Template.holder "agent:id" "y"]
      [("x", PyVal.str "001"), ("y", PyVal.str "002")] =
      Except.ok (["x", "y"],
        [("a", [Resource.mk "agent:id" "001", Resource.mk "agent:id" "002"])],
        true) ∧
    pmLookup (_match_permissions env0 "white"
      [("a", [Resource.mk "agent:id" "001", Resource.mk "agent:id" "002"])]
      [("a", [(Resource.mk "agent:id" "*", "allow")])]) "agent:id" =
      some {"001", "002"} ∧
    ({"001", "002"} : Finset String) ≠ ∅ :=
  ⟨rfl, rfl, by decide, by decide⟩

/-- Claim C2 (amended): given a successful parse, the gate rejects the whole
call with `WazuhError(4000)` (AccessDenied) exactly when some declared target
position `i` is denied — i.e. the `i`-th key of the resolved permission dict
is missing (`IndexError`) or the permitted set stored at that key is empty —
and any such rejection is independent of the wrapped operation and
post-processor, which are therefore never executed on a denied call. -/
theorem c2_amended {α β γ δ : Type} (env : Env) (mode : String)
    (actions : List String) (resources : List Template) (kwargs : Kwargs)
    (rbac : Rbac) (tps : List String) (rp : List (String × List Resource))
    (ad : Bool)
    (hparse : _get_required_permissions actions resources kwargs =
      Except.ok (tps, rp, ad))
    (func : Kwargs → α)
    (post : α → Kwargs → PermMap → List String → Bool → β)
    (func2 : Kwargs → γ)
    (post2 : γ → Kwargs → PermMap → List String → Bool → δ) :
    (wrapper env mode actions resources kwargs rbac func post =
        Except.error WErr.e4000 ↔
      ∃ j, j < tps.length ∧
        deniedAtB (_match_permissions env mode rp rbac) j = true) ∧
    (wrapper env mode actions resources kwargs rbac func post =
        Except.error WErr.e4000 →
      wrapper env mode actions resources kwargs rbac func2 post2 =
        Except.error WErr.e4000) :=
  ⟨wrapper_error_iff env mode actions resources kwargs rbac tps rp ad hparse
      func post,
   fun h =>
     (wrapper_error_iff env mode actions resources kwargs rbac tps rp ad
        hparse func2 post2).mpr
       ((wrapper_error_iff env mode actions resources kwargs rbac tps rp ad
          hparse func post).mp h)⟩

/-- Witness for `c2_amended`: the duplicate-prefix call is rejected, and the
rejection is unchanged under a different wrapped operation and
post-processor. -/
theorem c2_amended_witness :
    wrapper env0 "white" ["a"]
      [Template.holder "agent:id" "x", Template.holder "agent:id" "y"]
      [("x", PyVal.str "001"), ("y", PyVal.str "002")]
      [("a", [(Resource.mk "agent:id" "*", "allow")])]
      (fun _ => (1 : Nat)) (fun _ o _ _ _ => o) = Except.error WErr.e4000 ∧
    wrapper env0 "white" ["a"]
      [Template.holder "agent:id" "x", Template.holder "agent:id" "y"]
      [("x", PyVal.str "001"), ("y", PyVal.str "002")]
      [("a", [(Resource.mk "agent:id" "*", "allow")])]
      (fun _ => "other") (fun r _ _ _ _ => r) = Except.error WErr.e4000 := by
  have h := c2_amended env0 "white" ["a"]
    [Template.holder "agent:id" "x", Template.holder "agent:id" "y"]
    [("x", PyVal.str "001"), ("y", PyVal.str "002")]
    [("a", [(Resource.mk "agent:id" "*", "allow")])]
    ["x", "y"]
    [("a", [Resource.mk "agent:id" "001", Resource.mk "agent:id" "002"])]
    true rfl
    (fun _ => (1 : Nat)) (fun _ o _ _ _ => o)
    (fun _ => "other") (fun r _ _ _ _ => r)
  have h1 := h.1.mpr ⟨1, by decide, by decide⟩
  exact ⟨h1, h.2 h1⟩
